import Mathlib

/-!
Shallow embedding of the weight-loading and dimension-fitting core of
`predict.py` (Cog-SDXL-ControlNet-LoRA-Small), with theorems checking the
specification's claims against it.

The embedding covers: the DimensionFitter
(`Predictor.resize_to_allowed_dimensions`), adapter schema inference
(the LoRA branch of `Predictor.load_trained_weights`), the loader's state
machine (`Predictor.load_trained_weights` as a whole, with environment
outcomes made explicit), and the weight-argument normalization of
`Predictor.setup`.
-/

namespace Predict

/-- The fixed list of SDXL-supported dimensions from
`Predictor.resize_to_allowed_dimensions`. -/
def allowed_dimensions : List (Nat × Nat) :=
  [(512, 2048), (512, 1984), (512, 1920), (512, 1856),
   (576, 1792), (576, 1728), (576, 1664), (640, 1600),
   (640, 1536), (704, 1472), (704, 1408), (704, 1344),
   (768, 1344), (768, 1280), (832, 1216), (832, 1152),
   (896, 1152), (896, 1088), (960, 1088), (960, 1024),
   (1024, 1024), (1024, 960), (1088, 960), (1088, 896),
   (1152, 896), (1152, 832), (1216, 832), (1280, 768),
   (1344, 768), (1408, 704), (1472, 704), (1536, 640),
   (1600, 640), (1664, 576), (1728, 576), (1792, 576),
   (1856, 512), (1920, 512), (1984, 512), (2048, 512)]

/-- Distance of a candidate pair's aspect ratio from the target ratio `r`:
the key function `lambda dim: abs(dim[0] / dim[1] - aspect_ratio)`. -/
def ratio_dist (r : ℚ) (dim : Nat × Nat) : ℚ :=
  |(dim.1 : ℚ) / (dim.2 : ℚ) - r|

/-- One step of Python `min` with a key function: keep the current minimum
unless the next element's key is strictly smaller. -/
def pyMinStep {α : Type} (key : α → ℚ) (acc y : α) : α :=
  if key y < key acc then y else acc

/-- Python `min(l, key=key)`: the first element with minimal key; `none` on
an empty list (where Python raises ValueError). -/
def pyMin {α : Type} (key : α → ℚ) : List α → Option α
  | [] => none
  | x :: xs => some (xs.foldl (pyMinStep key) x)

/-- `Predictor.resize_to_allowed_dimensions`.  The integer width and height
come from `image.size`; `width / height` raises ZeroDivisionError when
`height = 0`, modelled as `none`.  Division is modelled exactly over `ℚ`. -/
def resize_to_allowed_dimensions (width height : Nat) : Option (Nat × Nat) :=
  if height = 0 then none
  else pyMin (ratio_dist ((width : ℚ) / (height : ℚ))) allowed_dimensions

/-!
Adapter schema inference, inlined in `Predictor.load_trained_weights`
(lines 128-171 of `predict.py`).  Tensor and module names are modelled as
their character sequences.
-/

abbrev Name := List Char

/-- Python `tk.split(".")`, with the current segment as accumulator. -/
def splitDotsAux : Name → Name → List Name
  | [], cur => [cur.reverse]
  | c :: rest, cur =>
      if c = '.' then cur.reverse :: splitDotsAux rest []
      else splitDotsAux rest (c :: cur)

/-- Python `tk.split(".")`. -/
def splitDots (n : Name) : List Name := splitDotsAux n []

/-- Python `".".join(segs)`. -/
def joinDots : List Name → Name
  | [] => []
  | [s] => s
  | s :: rest => s ++ '.' :: joinDots rest

/-- `".".join(tk.split(".")[:-3])`: the module_path obtained by dropping
the final three dotted segments of a tensor name (line 141). -/
def strip3 (tk : Name) : Name :=
  joinDots (((splitDots tk).dropLast).dropLast.dropLast)

/-- Python `tk.endswith("up.weight")` (line 140). -/
def endsWithUpWeight (tk : Name) : Bool :=
  List.isSuffixOf ("up.weight".toList) tk

/-- A serialized tensor: its name and its shape. -/
structure Tensor where
  name : Name
  shape : List Nat
deriving DecidableEq, Repr

/-- The Python exceptions the loader can raise.  The code defines no
SchemaError or any classified error type of its own. -/
inductive PyErr where
  | valueError
  | indexError
  | keyError
  | fetchError
  | osError
  | unboundLocal
deriving DecidableEq, Repr

/-- Python dict assignment `m[k] = v` on an association list: overwrite in
place when the key is present, append otherwise. -/
def dictInsert (m : List (Name × Nat)) (k : Name) (v : Nat) : List (Name × Nat) :=
  if m.any (fun p => p.1 == k) then
    m.map (fun p => if p.1 == k then (k, v) else p)
  else m ++ [(k, v)]

/-- Python dict lookup `m[k]` as an `Option`. -/
def dictGet? (m : List (Name × Nat)) (k : Name) : Option Nat :=
  (m.find? (fun p => p.1 == k)).map (fun p => p.2)

/-- Rank discovery (lines 136-143): for every tensor whose name ends in
`up.weight`, record `rank = shape[1]` under the stripped module_path, a
later entry overwriting an earlier one exactly as Python dict assignment
does.  A missing `shape[1]` raises IndexError. -/
def rank_discovery : List Tensor → List (Name × Nat) → Except PyErr (List (Name × Nat))
  | [], m => .ok m
  | t :: ts, m =>
      if endsWithUpWeight t.name then
        match t.shape[1]? with
        | none => .error .indexError
        | some r => rank_discovery ts (dictInsert m (strip3 t.name) r)
      else rank_discovery ts m

/-- The parts of `unet.config` the loader reads. -/
structure UnetConfig where
  block_out_channels : List Nat
  cross_attention_dim : Nat
deriving DecidableEq, Repr

/-- Python `int(c)` applied to a single character. -/
def pyIntChar (c : Char) : Except PyErr Nat :=
  if c.isDigit then .ok (c.toNat - 48) else .error .valueError

/-- The hidden-size computation of lines 151-160: names starting with
`mid_block` read the last channel width (`block_out_channels[-1]`), names
starting with `up_blocks` parse the single character at index 10 as the
block number and index the reversed channel list, names starting with
`down_blocks` parse the character at index 12 and index the list directly;
any other name leaves `hidden_size` unbound (UnboundLocalError at the
constructor call on line 162). -/
def hidden_size (chans : List Nat) (name : Name) : Except PyErr Nat :=
  if List.isPrefixOf ("mid_block".toList) name then
    match chans.getLast? with
    | some h => .ok h
    | none => .error .indexError
  else if List.isPrefixOf ("up_blocks".toList) name then
    match name[10]? with
    | none => .error .indexError
    | some c =>
        match pyIntChar c with
        | .error e => .error e
        | .ok k =>
            match chans.reverse[k]? with
            | some h => .ok h
            | none => .error .indexError
  else if List.isPrefixOf ("down_blocks".toList) name then
    match name[12]? with
    | none => .error .indexError
    | some c =>
        match pyIntChar c with
        | .error e => .error e
        | .ok k =>
            match chans[k]? with
            | some h => .ok h
            | none => .error .indexError
  else .error .unboundLocal

/-- cross_attention_dim (lines 146-150): `none` for a self-attention
processor (name ends in `attn1.processor`), the configured scalar width
otherwise. -/
def cross_attn (cfg : UnetConfig) (name : Name) : Option Nat :=
  if List.isSuffixOf ("attn1.processor".toList) name then none
  else some cfg.cross_attention_dim

/-- The data a `LoRAAttnProcessor2_0` placeholder is instantiated with. -/
structure AdapterModuleSpec where
  module_path : Name
  hidden_size : Nat
  cross_attention_dim : Option Nat
  rank : Nat
deriving DecidableEq, Repr

/-- Construction of one placeholder module (lines 145-168): hidden size
from the name's block family, rank from `name_rank_map[name]` — a KeyError
when the layout name is absent from the rank map. -/
def build_spec (cfg : UnetConfig) (rank_map : List (Name × Nat)) (name : Name) :
    Except PyErr AdapterModuleSpec :=
  match hidden_size cfg.block_out_channels name with
  | .error e => .error e
  | .ok h =>
      match dictGet? rank_map name with
      | none => .error .keyError
      | some r => .ok ⟨name, h, cross_attn cfg name, r⟩

/-- The loop over `unet.attn_processors.items()`: one spec per layout
entry, aborting at the first raised exception. -/
def mapE {α β : Type} (f : α → Except PyErr β) : List α → Except PyErr (List β)
  | [] => .ok []
  | a :: rest =>
      match f a with
      | .error e => .error e
      | .ok b =>
          match mapE f rest with
          | .error e => .error e
          | .ok bs => .ok (b :: bs)

/-- Schema inference over an adapter bundle (lines 133-168): rank discovery
over the tensor store, then one placeholder spec per name in the target
module layout. -/
def infer_schema (cfg : UnetConfig) (tensors : List Tensor) (layout : List Name) :
    Except PyErr (List AdapterModuleSpec) :=
  match rank_discovery tensors [] with
  | .error e => .error e
  | .ok m => mapE (build_spec cfg m) layout

/-- The first defined of two options (used to state what rank discovery
publishes for a module_path). -/
def firstSome {α : Type} : Option α → Option α → Option α
  | some a, _ => some a
  | none, b => b

/-- The rank declared by the last expansion-role tensor for `path` in
iteration order, if any. -/
def last_rank (ts : List Tensor) (path : Name) : Option Nat :=
  (ts.reverse.find? (fun u => endsWithUpWeight u.name && (strip3 u.name == path))).bind
    (fun u => u.shape[1]?)

/-!
The loader state machine of `Predictor.load_trained_weights`
(lines 96-186), with the outcomes of its external steps (cache fetch, file
loads) made explicit as an environment.
-/

/-- The target module graph as the loader sees it: its config, the names of
its attention processors, the currently installed set of custom processors
(`none` = the default ones), and the tensor stores merged onto it
non-strictly so far. -/
structure Unet where
  config : UnetConfig
  attn_processor_names : List Name
  procs : Option (List AdapterModuleSpec)
  merged : List (List Tensor)
deriving DecidableEq, Repr

/-- The loader's published state on the predictor object. -/
structure LoaderSt where
  tuned_weights : Option String
  is_lora : Bool
  token_map : Option (List (String × String))
  tuned_model : Bool
deriving DecidableEq, Repr

/-- Outcomes of the steps of `load_trained_weights` that depend on the
outside world: the cache fetch, the presence of `unet.safetensors`, the
two `load_file` calls, the embeddings load, and the
`special_params.json` read. -/
structure LoadEnv where
  fetch_ok : Bool
  has_unet : Bool
  unet_tensors : Except PyErr (List Tensor)
  lora_tensors : Except PyErr (List Tensor)
  embeddings_ok : Bool
  special_params : Except PyErr (List (String × String))

/-- `Predictor.load_trained_weights` as a state transformer.  Python
exceptions propagate to the caller, leaving every attribute assigned so
far in place; the returned `Except` is the call's outcome.
Sequencing is exactly that of lines 96-186:
`self.tuned_weights` is assigned (line 106) before the cache fetch
(line 108); `self.is_lora` is assigned during classification
(lines 112-117); on the full path the unet store is merged non-strictly
(line 126); on the adapter path the full processor set is built, then
installed, then the adapter store merged (lines 136-171); the embeddings
load (line 178) and `special_params.json` read (line 182) follow;
`self.token_map` and `self.tuned_model` are assigned last
(lines 184-186). -/
def load_trained_weights (env : LoadEnv) (weights : String) (st : LoaderSt)
    (unet : Unet) : LoaderSt × Unet × Except PyErr Unit :=
  let st1 : LoaderSt := { st with tuned_weights := some weights }
  if env.fetch_ok then
    let st2 : LoaderSt := { st1 with is_lora := !env.has_unet }
    let branch : Except PyErr Unet :=
      if env.has_unet then
        match env.unet_tensors with
        | .error e => .error e
        | .ok ts => .ok { unet with merged := unet.merged ++ [ts] }
      else
        match env.lora_tensors with
        | .error e => .error e
        | .ok ts =>
            match infer_schema unet.config ts unet.attn_processor_names with
            | .error e => .error e
            | .ok specs =>
                .ok { unet with procs := some specs, merged := unet.merged ++ [ts] }
    match branch with
    | .error e => (st2, unet, .error e)
    | .ok unet2 =>
        if env.embeddings_ok then
          match env.special_params with
          | .error e => (st2, unet2, .error e)
          | .ok params =>
              ({ st2 with token_map := some params, tuned_model := true },
                unet2, .ok ())
        else (st2, unet2, .error .osError)
  else (st1, unet, .error .fetchError)

/-!
The weight-argument handling of `Predictor.setup` (lines 188-196 and
241-243).  A weights argument is modelled by the string form `str(...)`
produces for it; `none` is Python `None` (whose string form is `"None"`).
-/

/-- Lines 193-194: `if str(weights) == "weights": weights = None`. -/
def setup_weights_normalize (weights : Option String) : Option String :=
  let s := match weights with
    | none => "None"
    | some s => s
  if s = "weights" then none else weights

/-- Line 242: `if weights or os.path.exists("./trained-model")`, deciding
whether `load_trained_weights` runs at setup.  A non-None weights object
is truthy. -/
def setup_loads_trained (weights : Option String) (trained_model_exists : Bool) :
    Bool :=
  (setup_weights_normalize weights).isSome || trained_model_exists

/-!  Theorems.  -/

/-- The fold underlying `pyMin` returns an element of the list that has a
minimal key and is the first such element in iteration order. -/
lemma pyMinStep_foldl_spec {α : Type} (key : α → ℚ) :
    ∀ (xs : List α) (a : α),
      ∃ l₁ l₂, a :: xs = l₁ ++ xs.foldl (pyMinStep key) a :: l₂ ∧
        (∀ q ∈ a :: xs, key (xs.foldl (pyMinStep key) a) ≤ key q) ∧
        (∀ q ∈ l₁, key (xs.foldl (pyMinStep key) a) < key q) := by
  intro xs
  induction xs with
  | nil =>
      intro a
      refine ⟨[], [], rfl, ?_, by simp⟩
      intro q hq
      simp only [List.foldl_nil]
      rcases List.mem_singleton.mp hq with rfl
      exact le_refl _
  | cons y ys ih =>
      intro a
      rw [List.foldl_cons]
      by_cases hlt : key y < key a
      · have hstep : pyMinStep key a y = y := if_pos hlt
        rw [hstep]
        obtain ⟨l₁, l₂, heq, hmin, hfirst⟩ := ih y
        have hmy : key (ys.foldl (pyMinStep key) y) ≤ key y :=
          hmin y (List.mem_cons_self y ys)
        refine ⟨a :: l₁, l₂, ?_, ?_, ?_⟩
        · simpa using congrArg (List.cons a) heq
        · intro q hq
          rcases List.mem_cons.mp hq with rfl | hq'
          · exact le_of_lt (lt_of_le_of_lt hmy hlt)
          · exact hmin q hq'
        · intro q hq
          rcases List.mem_cons.mp hq with rfl | hq'
          · exact lt_of_le_of_lt hmy hlt
          · exact hfirst q hq'
      · have hstep : pyMinStep key a y = a := if_neg hlt
        rw [hstep]
        obtain ⟨l₁, l₂, heq, hmin, hfirst⟩ := ih a
        have hay : key a ≤ key y := le_of_not_lt hlt
        cases l₁ with
        | nil =>
            simp only [List.nil_append] at heq
            injection heq with h1 h2
            refine ⟨[], y :: ys, ?_, ?_, by simp⟩
            · rw [List.nil_append, ← h1]
            · intro q hq
              rw [← h1]
              rcases List.mem_cons.mp hq with rfl | hq'
              · exact le_refl _
              · rcases List.mem_cons.mp hq' with rfl | hq''
                · exact hay
                · exact h1 ▸ hmin q (List.mem_cons_of_mem a hq'')
        | cons b l₁' =>
            simp only [List.cons_append] at heq
            injection heq with h1 h2
            have ham : key (ys.foldl (pyMinStep key) a) < key a :=
              h1 ▸ hfirst b (List.mem_cons_self b l₁')
            refine ⟨a :: y :: l₁', l₂, ?_, ?_, ?_⟩
            · rw [List.cons_append, List.cons_append, ← h2]
            · intro q hq
              rcases List.mem_cons.mp hq with rfl | hq'
              · exact le_of_lt ham
              · rcases List.mem_cons.mp hq' with rfl | hq''
                · exact le_trans (le_of_lt ham) hay
                · exact hmin q (List.mem_cons_of_mem a hq'')
            · intro q hq
              rcases List.mem_cons.mp hq with rfl | hq'
              · exact ham
              · rcases List.mem_cons.mp hq' with rfl | hq''
                · exact lt_of_lt_of_le ham hay
                · exact hfirst q (List.mem_cons_of_mem b hq'')

/-- `pyMin` on a nonempty list returns the first element of minimal key. -/
lemma pyMin_spec {α : Type} (key : α → ℚ) (l : List α) (hne : l ≠ []) :
    ∃ p l₁ l₂, pyMin key l = some p ∧ l = l₁ ++ p :: l₂ ∧
      (∀ q ∈ l, key p ≤ key q) ∧ (∀ q ∈ l₁, key p < key q) := by
  cases l with
  | nil => exact absurd rfl hne
  | cons a xs =>
      obtain ⟨l₁, l₂, heq, hmin, hfirst⟩ := pyMinStep_foldl_spec key xs a
      exact ⟨xs.foldl (pyMinStep key) a, l₁, l₂, rfl, heq, hmin, hfirst⟩

/-- C3: for every (width, height) with height > 0, the fit returns a pair
from the fixed allowed-dimension list that minimizes the absolute ratio
distance to width/height, ties broken by the first minimal element in the
list's iteration order (every pair listed strictly earlier has a strictly
larger distance). -/
theorem resize_first_minimal (width height : Nat) (hh : 0 < height) :
    ∃ p l₁ l₂,
      resize_to_allowed_dimensions width height = some p ∧
      allowed_dimensions = l₁ ++ p :: l₂ ∧
      (∀ q ∈ allowed_dimensions,
        ratio_dist ((width : ℚ) / (height : ℚ)) p ≤
          ratio_dist ((width : ℚ) / (height : ℚ)) q) ∧
      (∀ q ∈ l₁,
        ratio_dist ((width : ℚ) / (height : ℚ)) p <
          ratio_dist ((width : ℚ) / (height : ℚ)) q) := by
  have h0 : ¬ height = 0 := by omega
  obtain ⟨p, l₁, l₂, hp, heq, hmin, hfirst⟩ :=
    pyMin_spec (ratio_dist ((width : ℚ) / (height : ℚ))) allowed_dimensions
      (by simp [allowed_dimensions])
  refine ⟨p, l₁, l₂, ?_, heq, hmin, hfirst⟩
  simpa [resize_to_allowed_dimensions, h0] using hp

/-- Witness for C3 at the concrete input (1600, 900). -/
theorem resize_first_minimal_witness :
    ∃ p l₁ l₂,
      resize_to_allowed_dimensions 1600 900 = some p ∧
      allowed_dimensions = l₁ ++ p :: l₂ ∧
      (∀ q ∈ allowed_dimensions,
        ratio_dist ((1600 : ℚ) / (900 : ℚ)) p ≤
          ratio_dist ((1600 : ℚ) / (900 : ℚ)) q) ∧
      (∀ q ∈ l₁,
        ratio_dist ((1600 : ℚ) / (900 : ℚ)) p <
          ratio_dist ((1600 : ℚ) / (900 : ℚ)) q) :=
  resize_first_minimal 1600 900 (by decide)

/-- C4 counterexample: at input (1024, 0) the code raises ZeroDivisionError
(`width / height`), so it does not return a value from the fixed set —
the function is not total over all inputs. -/
theorem resize_zero_height_fails :
    resize_to_allowed_dimensions 1024 0 = none := rfl

/-- C4 (amended): for every input with height ≠ 0, the fit returns a value
from the fixed allowed-dimension set; at height = 0 it raises
ZeroDivisionError instead of returning a value. -/
theorem resize_total_on_positive_height (width height : Nat) (hh : height ≠ 0) :
    (∃ p, resize_to_allowed_dimensions width height = some p ∧
      p ∈ allowed_dimensions) ∧
    resize_to_allowed_dimensions width 0 = none := by
  obtain ⟨p, l₁, l₂, hp, heq, hmin, hfirst⟩ :=
    pyMin_spec (ratio_dist ((width : ℚ) / (height : ℚ))) allowed_dimensions
      (by simp [allowed_dimensions])
  refine ⟨⟨p, ?_, ?_⟩, rfl⟩
  · simpa [resize_to_allowed_dimensions, hh] using hp
  · rw [heq]
    exact List.mem_append_right l₁ (List.mem_cons_self p l₂)

/-- Witness for the amended C4 at the concrete input (800, 600). -/
theorem resize_total_on_positive_height_witness :
    (∃ p, resize_to_allowed_dimensions 800 600 = some p ∧
      p ∈ allowed_dimensions) ∧
    resize_to_allowed_dimensions 800 0 = none :=
  resize_total_on_positive_height 800 600 (by decide)

/-- A successful `build_spec` keeps the layout name as the module_path. -/
lemma build_spec_path (cfg : UnetConfig) (m : List (Name × Nat)) (name : Name)
    (s : AdapterModuleSpec) (h : build_spec cfg m name = .ok s) :
    s.module_path = name := by
  unfold build_spec at h
  cases hh : hidden_size cfg.block_out_channels name with
  | error e => rw [hh] at h; simp at h
  | ok hsz =>
      rw [hh] at h
      cases hg : dictGet? m name with
      | none => rw [hg] at h; simp at h
      | some r =>
          rw [hg] at h
          injection h with h'
          rw [← h']

/-- A successful `mapE (build_spec ...)` yields one spec per layout entry,
in order. -/
lemma mapE_build_spec_paths (cfg : UnetConfig) (m : List (Name × Nat)) :
    ∀ (layout : List Name) (specs : List AdapterModuleSpec),
      mapE (build_spec cfg m) layout = .ok specs →
      specs.map (fun s => s.module_path) = layout := by
  intro layout
  induction layout with
  | nil =>
      intro specs h
      simp only [mapE] at h
      injection h with h'
      rw [← h']
      rfl
  | cons n rest ih =>
      intro specs h
      simp only [mapE] at h
      cases hb : build_spec cfg m n with
      | error e => rw [hb] at h; simp at h
      | ok s =>
          rw [hb] at h
          cases hr : mapE (build_spec cfg m) rest with
          | error e => rw [hr] at h; simp at h
          | ok bs =>
              rw [hr] at h
              injection h with h'
              rw [← h']
              simp [List.map_cons, ih bs hr, build_spec_path cfg m n s hb]

/-- C2 counterexample: a partial adapter fails rather than succeeds.  With
an empty adapter bundle and a target layout containing one module_path,
schema inference raises KeyError (`name_rank_map[name]`, line 165) instead
of leaving the base module untouched. -/
theorem infer_schema_partial_adapter_fails :
    infer_schema ⟨[320, 640, 1280], 2048⟩ []
      ["mid_block.attentions.0.attn1.processor".toList] =
      .error .keyError := rfl

/-- C2 (amended): schema inference builds exactly one AdapterModuleSpec per
module_path of the target layout (not per discovered bundle path), in
layout order; a layout path absent from the adapter bundle raises KeyError
rather than being left untouched, so this succeeds only when every layout
path has a discovered rank. -/
theorem infer_schema_one_spec_per_layout_path (cfg : UnetConfig)
    (tensors : List Tensor) (layout : List Name)
    (specs : List AdapterModuleSpec)
    (h : infer_schema cfg tensors layout = .ok specs) :
    specs.map (fun s => s.module_path) = layout := by
  unfold infer_schema at h
  cases hr : rank_discovery tensors [] with
  | error e => rw [hr] at h; simp at h
  | ok m =>
      rw [hr] at h
      exact mapE_build_spec_paths cfg m layout specs h

/-- Witness for the amended C2: a one-module adapter bundle matching a
one-entry layout infers exactly that module_path. -/
theorem infer_schema_one_spec_per_layout_path_witness :
    ([⟨"mid_block.attentions.0.attn1.processor".toList, 1280, none, 4⟩] :
        List AdapterModuleSpec).map (fun s => s.module_path) =
      ["mid_block.attentions.0.attn1.processor".toList] :=
  infer_schema_one_spec_per_layout_path ⟨[320, 640, 1280], 2048⟩
    [⟨"mid_block.attentions.0.attn1.processor.to_q_lora.up.weight".toList,
      [640, 4]⟩]
    ["mid_block.attentions.0.attn1.processor".toList]
    [⟨"mid_block.attentions.0.attn1.processor".toList, 1280, none, 4⟩]
    rfl

/-- C5: hidden-size inference per block family — names starting with
`mid_block` get the last channel width, `up_blocks.k` the reversed channel
list at index k, `down_blocks.k` the channel list at index k; in
particular, with channel widths [320, 640, 1280], a `down_blocks.1` module
yields 640 and a `mid_block` module yields 1280. -/
theorem hidden_size_families (chans : List Nat) (rest : Name) (c : Char)
    (hm hu hd : Nat)
    (hlast : chans.getLast? = some hm)
    (hcd : c.isDigit = true)
    (hup : chans.reverse[(c.toNat - 48)]? = some hu)
    (hdown : chans[(c.toNat - 48)]? = some hd) :
    hidden_size chans ("mid_block".toList ++ rest) = .ok hm ∧
    hidden_size chans ("up_blocks.".toList ++ c :: rest) = .ok hu ∧
    hidden_size chans ("down_blocks.".toList ++ c :: rest) = .ok hd ∧
    hidden_size [320, 640, 1280]
      ("down_blocks.1.attentions.0.attn1.processor".toList) = .ok 640 ∧
    hidden_size [320, 640, 1280]
      ("mid_block.attentions.0.attn1.processor".toList) = .ok 1280 := by
  refine ⟨?_, ?_, ?_, rfl, rfl⟩
  · have hpre : List.isPrefixOf ("mid_block".toList)
        ("mid_block".toList ++ rest) = true :=
      List.isPrefixOf_iff_prefix.mpr (List.prefix_append _ _)
    simp [hidden_size, hpre, hlast]
  · have hpre1 : List.isPrefixOf ("mid_block".toList)
        ("up_blocks.".toList ++ c :: rest) = false := rfl
    have hpre2 : List.isPrefixOf ("up_blocks".toList)
        ("up_blocks.".toList ++ c :: rest) = true := rfl
    have hidx : ("up_blocks.".toList ++ c :: rest)[10]? = some c := by
      rw [List.getElem?_append_right (by decide)]
      rw [show (10 - ("up_blocks.".toList).length) = 0 from rfl]
      exact List.getElem?_cons_zero
    simp [hidden_size, hpre1, hpre2, hidx, pyIntChar, hcd, hup]
  · have hpre1 : List.isPrefixOf ("mid_block".toList)
        ("down_blocks.".toList ++ c :: rest) = false := rfl
    have hpre2 : List.isPrefixOf ("up_blocks".toList)
        ("down_blocks.".toList ++ c :: rest) = false := rfl
    have hpre3 : List.isPrefixOf ("down_blocks".toList)
        ("down_blocks.".toList ++ c :: rest) = true := rfl
    have hidx : ("down_blocks.".toList ++ c :: rest)[12]? = some c := by
      rw [List.getElem?_append_right (by decide)]
      rw [show (12 - ("down_blocks.".toList).length) = 0 from rfl]
      exact List.getElem?_cons_zero
    simp [hidden_size, hpre1, hpre2, hpre3, hidx, pyIntChar, hcd, hdown]

/-- Witness for C5 with channel widths [320, 640, 1280] and block digit 1. -/
theorem hidden_size_families_witness :
    hidden_size [320, 640, 1280]
      ("mid_block".toList ++ ".attentions.0.attn1.processor".toList) =
      .ok 1280 ∧
    hidden_size [320, 640, 1280]
      ("up_blocks.".toList ++ '1' :: ".attentions.0.attn1.processor".toList) =
      .ok 640 ∧
    hidden_size [320, 640, 1280]
      ("down_blocks.".toList ++ '1' :: ".attentions.0.attn1.processor".toList) =
      .ok 640 ∧
    hidden_size [320, 640, 1280]
      ("down_blocks.1.attentions.0.attn1.processor".toList) = .ok 640 ∧
    hidden_size [320, 640, 1280]
      ("mid_block.attentions.0.attn1.processor".toList) = .ok 1280 :=
  hidden_size_families [320, 640, 1280] (".attentions.0.attn1.processor".toList)
    '1' 1280 640 640 rfl (by decide) rfl rfl

/-- C6 counterexample: a malformed or out-of-range block number does not
fail with a classified SchemaError — it raises the unclassified Python
IndexError (out-of-range index into the channel list) or ValueError
(non-digit block segment). -/
theorem infer_schema_unclassified_block_errors :
    infer_schema ⟨[320, 640, 1280], 2048⟩ []
      ["down_blocks.9.attentions.0.attn1.processor".toList] =
      .error .indexError ∧
    infer_schema ⟨[320, 640, 1280], 2048⟩ []
      ["down_blocks.q.attentions.0.attn1.processor".toList] =
      .error .valueError := ⟨rfl, rfl⟩

/-- C6 (amended): for a module_path whose segment after the block-family
tag is not a digit, schema inference raises ValueError (`int(...)`,
lines 154/159); for a digit denoting an index out of range of the
channel-width list it raises IndexError — both unclassified Python
exceptions, not a SchemaError (the code defines none). -/
theorem hidden_size_block_errors (chans : List Nat) (rest : Name) (c d : Char)
    (hcn : c.isDigit = false)
    (hdd : d.isDigit = true)
    (hupo : chans.reverse[(d.toNat - 48)]? = none)
    (hdo : chans[(d.toNat - 48)]? = none) :
    hidden_size chans ("up_blocks.".toList ++ c :: rest) =
      .error .valueError ∧
    hidden_size chans ("down_blocks.".toList ++ c :: rest) =
      .error .valueError ∧
    hidden_size chans ("up_blocks.".toList ++ d :: rest) =
      .error .indexError ∧
    hidden_size chans ("down_blocks.".toList ++ d :: rest) =
      .error .indexError := by
  have hpu1 : ∀ x : Char, ∀ r : Name, List.isPrefixOf ("mid_block".toList)
      ("up_blocks.".toList ++ x :: r) = false := fun _ _ => rfl
  have hpu2 : ∀ x : Char, ∀ r : Name, List.isPrefixOf ("up_blocks".toList)
      ("up_blocks.".toList ++ x :: r) = true := fun _ _ => rfl
  have hiu : ∀ x : Char, ∀ r : Name,
      ("up_blocks.".toList ++ x :: r)[10]? = some x := by
    intro x r
    rw [List.getElem?_append_right (by decide)]
    rw [show (10 - ("up_blocks.".toList).length) = 0 from rfl]
    exact List.getElem?_cons_zero
  have hpd1 : ∀ x : Char, ∀ r : Name, List.isPrefixOf ("mid_block".toList)
      ("down_blocks.".toList ++ x :: r) = false := fun _ _ => rfl
  have hpd2 : ∀ x : Char, ∀ r : Name, List.isPrefixOf ("up_blocks".toList)
      ("down_blocks.".toList ++ x :: r) = false := fun _ _ => rfl
  have hpd3 : ∀ x : Char, ∀ r : Name, List.isPrefixOf ("down_blocks".toList)
      ("down_blocks.".toList ++ x :: r) = true := fun _ _ => rfl
  have hid : ∀ x : Char, ∀ r : Name,
      ("down_blocks.".toList ++ x :: r)[12]? = some x := by
    intro x r
    rw [List.getElem?_append_right (by decide)]
    rw [show (12 - ("down_blocks.".toList).length) = 0 from rfl]
    exact List.getElem?_cons_zero
  refine ⟨?_, ?_, ?_, ?_⟩
  · simp [hidden_size, hpu1 c rest, hpu2 c rest, hiu c rest, pyIntChar, hcn]
  · simp [hidden_size, hpd1 c rest, hpd2 c rest, hpd3 c rest, hid c rest,
      pyIntChar, hcn]
  · simp [hidden_size, hpu1 d rest, hpu2 d rest, hiu d rest, pyIntChar, hdd,
      hupo]
  · simp [hidden_size, hpd1 d rest, hpd2 d rest, hpd3 d rest, hid d rest,
      pyIntChar, hdd, hdo]

/-- Witness for the amended C6 with channel widths [320, 640, 1280], a
non-digit block segment `q` and an out-of-range block number 9. -/
theorem hidden_size_block_errors_witness :
    hidden_size [320, 640, 1280]
      ("up_blocks.".toList ++ 'q' :: ".attentions.0.attn1.processor".toList) =
      .error .valueError ∧
    hidden_size [320, 640, 1280]
      ("down_blocks.".toList ++ 'q' :: ".attentions.0.attn1.processor".toList) =
      .error .valueError ∧
    hidden_size [320, 640, 1280]
      ("up_blocks.".toList ++ '9' :: ".attentions.0.attn1.processor".toList) =
      .error .indexError ∧
    hidden_size [320, 640, 1280]
      ("down_blocks.".toList ++ '9' :: ".attentions.0.attn1.processor".toList) =
      .error .indexError :=
  hidden_size_block_errors [320, 640, 1280]
    (".attentions.0.attn1.processor".toList) 'q' '9'
    (by decide) (by decide) rfl rfl

/-- `find?` over a list with a single element appended. -/
lemma find?_concat {α : Type} (p : α → Bool) (a : α) :
    ∀ l : List α, (l ++ [a]).find? p =
      match l.find? p with
      | some x => some x
      | none => if p a then some a else none := by
  intro l
  induction l with
  | nil =>
      cases hpa : p a with
      | true => simp [List.find?_cons_of_pos _ hpa, hpa]
      | false =>
          have hpa' : ¬ p a = true := by simp [hpa]
          simp [List.find?_cons_of_neg _ hpa', hpa]
  | cons b l ih =>
      cases hpb : p b with
      | true => simp [List.cons_append, List.find?_cons_of_pos _ hpb]
      | false =>
          have hpb' : ¬ p b = true := by simp [hpb]
          simp [List.cons_append, List.find?_cons_of_neg _ hpb', ih]

/-- Overwriting a present key: `find?` retrieves the overwritten pair. -/
lemma find?_overwrite (k : Name) (v : Nat) :
    ∀ m : List (Name × Nat), m.any (fun p => p.1 == k) = true →
      (m.map (fun p => if p.1 == k then (k, v) else p)).find?
        (fun p => p.1 == k) = some (k, v) := by
  intro m
  induction m with
  | nil => intro h; simp at h
  | cons q m ih =>
      intro h
      cases hqk : (q.1 == k) with
      | true =>
          simp only [List.map_cons, hqk, if_true]
          exact List.find?_cons_of_pos _ (by simp)
      | false =>
          have hm : m.any (fun p => p.1 == k) = true := by
            simp only [List.any_cons, hqk, Bool.false_or] at h
            exact h
          have hqk' : ¬ ((q.1 == k) = true) := by simp [hqk]
          rw [List.map_cons, if_neg hqk',
            @List.find?_cons_of_neg _ (fun p => p.1 == k) q _ hqk']
          exact ih hm

/-- Overwriting key `k` does not change lookups of a different key. -/
lemma find?_map_ne (k k' : Name) (v : Nat) (hne : k ≠ k') :
    ∀ m : List (Name × Nat),
      (m.map (fun p => if p.1 == k then (k, v) else p)).find?
        (fun p => p.1 == k') = m.find? (fun p => p.1 == k') := by
  intro m
  induction m with
  | nil => rfl
  | cons q m ih =>
      cases hqk : (q.1 == k) with
      | true =>
          have hq : q.1 = k := by simpa using hqk
          have h1 : ¬ ((((k, v) : Name × Nat).1 == k') = true) := by
            simp [hne]
          have h2 : ¬ ((q.1 == k') = true) := by simp [hq, hne]
          rw [List.map_cons, if_pos hqk,
            @List.find?_cons_of_neg _ (fun p => p.1 == k') ((k, v) : Name × Nat) _ h1,
            @List.find?_cons_of_neg _ (fun p => p.1 == k') q _ h2, ih]
      | false =>
          have hqkn : ¬ ((q.1 == k) = true) := by simp [hqk]
          cases hqk' : (q.1 == k') with
          | true =>
              rw [List.map_cons, if_neg hqkn,
                @List.find?_cons_of_pos _ (fun p => p.1 == k') q _ hqk',
                @List.find?_cons_of_pos _ (fun p => p.1 == k') q _ hqk']
          | false =>
              have h2 : ¬ ((q.1 == k') = true) := by simp [hqk']
              rw [List.map_cons, if_neg hqkn,
                @List.find?_cons_of_neg _ (fun p => p.1 == k') q _ h2,
                @List.find?_cons_of_neg _ (fun p => p.1 == k') q _ h2, ih]

/-- Python dict semantics: after `m[k] = v`, looking up `k` yields `v`. -/
lemma dictGet?_insert_self (m : List (Name × Nat)) (k : Name) (v : Nat) :
    dictGet? (dictInsert m k v) k = some v := by
  unfold dictInsert dictGet?
  cases hany : m.any (fun p => p.1 == k) with
  | true =>
      rw [if_pos rfl, find?_overwrite k v m hany]
      rfl
  | false =>
      rw [if_neg (by simp), find?_concat]
      have hnone : m.find? (fun p => p.1 == k) = none := by
        refine List.find?_eq_none.mpr ?_
        intro x hx hpx
        have hc : m.any (fun p => p.1 == k) = true :=
          List.any_eq_true.mpr ⟨x, hx, hpx⟩
        rw [hany] at hc
        cases hc
      rw [hnone]
      simp

/-- Python dict semantics: `m[k] = v` leaves other keys' lookups
unchanged. -/
lemma dictGet?_insert_ne (m : List (Name × Nat)) (k k' : Name) (v : Nat)
    (hne : k ≠ k') :
    dictGet? (dictInsert m k v) k' = dictGet? m k' := by
  unfold dictInsert dictGet?
  cases hany : m.any (fun p => p.1 == k) with
  | true =>
      rw [if_pos rfl, find?_map_ne k k' v hne m]
  | false =>
      rw [if_neg (by simp), find?_concat]
      cases hf : m.find? (fun p => p.1 == k') with
      | some x => simp [hf]
      | none =>
          have hkk : (k == k') = false := beq_eq_false_iff_ne.mpr hne
          simp [hf, hkk]

/-- Every expansion tensor processed by a successful rank discovery has a
`shape[1]`. -/
lemma rank_discovery_shapes :
    ∀ (ts : List Tensor) (m m' : List (Name × Nat)),
      rank_discovery ts m = .ok m' →
      ∀ t ∈ ts, endsWithUpWeight t.name = true → ∃ r, t.shape[1]? = some r := by
  intro ts
  induction ts with
  | nil => intro m m' _ t ht; exact absurd ht (List.not_mem_nil t)
  | cons t0 ts ih =>
      intro m m' h t ht hE
      simp only [rank_discovery] at h
      cases hE0 : endsWithUpWeight t0.name with
      | false =>
          rw [if_neg (by simp [hE0])] at h
          rcases List.mem_cons.mp ht with rfl | ht'
          · rw [hE0] at hE; cases hE
          · exact ih m m' h t ht' hE
      | true =>
          rw [if_pos hE0] at h
          cases hs : t0.shape[1]? with
          | none => rw [hs] at h; simp at h
          | some r =>
              rw [hs] at h
              rcases List.mem_cons.mp ht with rfl | ht'
              · exact ⟨r, hs⟩
              · exact ih _ m' h t ht' hE

/-- C1 counterexample: two expansion tensors declaring the same module_path
with different ranks (4 and 8) do not make schema inference fail — it
succeeds and silently uses the later rank 8. -/
theorem rank_conflict_is_silently_overwritten :
    infer_schema ⟨[320, 640, 1280], 2048⟩
      [⟨"mid_block.attentions.0.attn1.processor.to_q_lora.up.weight".toList,
        [640, 4]⟩,
       ⟨"mid_block.attentions.0.attn1.processor.to_k_lora.up.weight".toList,
        [640, 8]⟩]
      ["mid_block.attentions.0.attn1.processor".toList] =
      .ok [⟨"mid_block.attentions.0.attn1.processor".toList, 1280, none, 8⟩] :=
  rfl

/-- C1 (amended): when the same module_path is declared by several
expansion tensors, rank discovery does not fail; the published rank for
that module_path is the one of the last such tensor in iteration order
(later dict assignments silently overwrite earlier ones). -/
theorem rank_discovery_last_write_wins :
    ∀ (ts : List Tensor) (m m' : List (Name × Nat)) (path : Name),
      rank_discovery ts m = .ok m' →
      dictGet? m' path = firstSome (last_rank ts path) (dictGet? m path) := by
  intro ts
  induction ts with
  | nil =>
      intro m m' path h
      simp only [rank_discovery] at h
      injection h with h'
      rw [← h']
      simp [last_rank, firstSome]
  | cons t ts ih =>
      intro m m' path h
      simp only [rank_discovery] at h
      have hrev : (t :: ts).reverse = ts.reverse ++ [t] := by simp
      cases hE : endsWithUpWeight t.name with
      | false =>
          rw [if_neg (by simp [hE])] at h
          have hpred : (endsWithUpWeight t.name &&
              (strip3 t.name == path)) = false := by simp [hE]
          have hlast : last_rank (t :: ts) path = last_rank ts path := by
            unfold last_rank
            rw [hrev, find?_concat]
            cases hf : ts.reverse.find?
                (fun u => endsWithUpWeight u.name && (strip3 u.name == path)) with
            | some x => simp [hf]
            | none => simp [hf, hpred]
          rw [hlast]
          exact ih m m' path h
      | true =>
          rw [if_pos hE] at h
          cases hs : t.shape[1]? with
          | none => rw [hs] at h; simp at h
          | some r =>
              rw [hs] at h
              have ihh := ih _ m' path h
              cases hsp : (strip3 t.name == path) with
              | false =>
                  have hne : strip3 t.name ≠ path := by simpa using hsp
                  have hget : dictGet? (dictInsert m (strip3 t.name) r) path =
                      dictGet? m path :=
                    dictGet?_insert_ne m (strip3 t.name) path r hne
                  have hpred : (endsWithUpWeight t.name &&
                      (strip3 t.name == path)) = false := by simp [hsp]
                  have hlast : last_rank (t :: ts) path = last_rank ts path := by
                    unfold last_rank
                    rw [hrev, find?_concat]
                    cases hf : ts.reverse.find?
                        (fun u => endsWithUpWeight u.name &&
                          (strip3 u.name == path)) with
                    | some x => simp [hf]
                    | none => simp [hf, hpred]
                  rw [hlast, ihh, hget]
              | true =>
                  have hpathEq : strip3 t.name = path := by simpa using hsp
                  have hpred : (endsWithUpWeight t.name &&
                      (strip3 t.name == path)) = true := by simp [hE, hsp]
                  have hget : dictGet? (dictInsert m (strip3 t.name) r) path =
                      some r := by
                    rw [hpathEq]
                    exact dictGet?_insert_self m path r
                  cases hf : ts.reverse.find?
                      (fun u => endsWithUpWeight u.name &&
                        (strip3 u.name == path)) with
                  | none =>
                      have h1 : last_rank ts path = none := by
                        simp [last_rank, hf]
                      have h2 : last_rank (t :: ts) path = some r := by
                        unfold last_rank
                        rw [hrev, find?_concat, hf]
                        simp [hpred, hs]
                      rw [h2, ihh, h1, hget]
                      rfl
                  | some u =>
                      have hu_mem : u ∈ ts :=
                        List.mem_reverse.mp (List.mem_of_find?_eq_some hf)
                      have hu_pred := List.find?_some hf
                      have hu_ends : endsWithUpWeight u.name = true := by
                        simp only [Bool.and_eq_true] at hu_pred
                        exact hu_pred.1
                      obtain ⟨r', hr'⟩ :=
                        rank_discovery_shapes ts _ m' h u hu_mem hu_ends
                      have h1 : last_rank ts path = some r' := by
                        simp [last_rank, hf, hr']
                      have h2 : last_rank (t :: ts) path = some r' := by
                        unfold last_rank
                        rw [hrev, find?_concat, hf]
                        simp [hr']
                      rw [h2, ihh, h1, hget]
                      rfl

/-- Witness for the amended C1: on the two-tensor conflicting bundle, the
published rank for the duplicated module_path is 8, the rank of the last
tensor. -/
theorem rank_discovery_last_write_wins_witness :
    dictGet? [("mid_block.attentions.0.attn1.processor".toList, 8)]
        ("mid_block.attentions.0.attn1.processor".toList) =
      firstSome
        (last_rank
          [⟨"mid_block.attentions.0.attn1.processor.to_q_lora.up.weight".toList,
            [640, 4]⟩,
           ⟨"mid_block.attentions.0.attn1.processor.to_k_lora.up.weight".toList,
            [640, 8]⟩]
          ("mid_block.attentions.0.attn1.processor".toList))
        (dictGet? [] ("mid_block.attentions.0.attn1.processor".toList)) :=
  rank_discovery_last_write_wins
    [⟨"mid_block.attentions.0.attn1.processor.to_q_lora.up.weight".toList,
      [640, 4]⟩,
     ⟨"mid_block.attentions.0.attn1.processor.to_k_lora.up.weight".toList,
      [640, 8]⟩]
    [] [("mid_block.attentions.0.attn1.processor".toList, 8)]
    ("mid_block.attentions.0.attn1.processor".toList) rfl

/-- C7: when the cache fetch succeeds, the bundle is classified purely by
the presence of `unet.safetensors` at the fixed sub-path: the published
is_lora flag ends up false exactly when it is present (Full) and true
exactly when it is absent (Adapter), regardless of the bundle's contents
or of the outcome of any later step. -/
theorem classification_is_structural (env : LoadEnv) (w : String)
    (st : LoaderSt) (unet : Unet) (hf : env.fetch_ok = true) :
    (load_trained_weights env w st unet).1.is_lora = !env.has_unet := by
  unfold load_trained_weights
  rw [if_pos hf]
  dsimp only
  repeat' split
  all_goals rfl

/-- Witness for C7: a Full bundle (unet.safetensors present) publishes
is_lora = false. -/
theorem classification_is_structural_witness :
    (load_trained_weights ⟨true, true, .ok [], .ok [], true, .ok []⟩ "ref"
        ⟨none, false, none, false⟩
        ⟨⟨[320, 640, 1280], 2048⟩, [], none, []⟩).1.is_lora =
      !(⟨true, true, .ok [], .ok [], true, .ok []⟩ : LoadEnv).has_unet :=
  classification_is_structural ⟨true, true, .ok [], .ok [], true, .ok []⟩
    "ref" ⟨none, false, none, false⟩
    ⟨⟨[320, 640, 1280], 2048⟩, [], none, []⟩ rfl

/-- C8 counterexample: state is mutated on failure.  (a) When the cache
fetch fails, the call errors but `tuned_weights` has already been updated
from `none` to the new reference (line 106 precedes line 108).  (b) When
the embeddings load fails after adapter installation, the call errors but
the target module graph already carries the newly installed attention
processors (line 170 precedes line 178). -/
theorem load_failure_leaves_mutations :
    ((load_trained_weights ⟨false, false, .ok [], .ok [], true, .ok []⟩ "ref"
        ⟨none, false, none, false⟩
        ⟨⟨[320, 640, 1280], 2048⟩,
          ["mid_block.attentions.0.attn1.processor".toList], none,
          []⟩).1.tuned_weights = some "ref" ∧
      (load_trained_weights ⟨false, false, .ok [], .ok [], true, .ok []⟩ "ref"
        ⟨none, false, none, false⟩
        ⟨⟨[320, 640, 1280], 2048⟩,
          ["mid_block.attentions.0.attn1.processor".toList], none,
          []⟩).2.2 = .error .fetchError) ∧
    ((load_trained_weights
        ⟨true, false, .ok [],
          .ok [⟨("mid_block.attentions.0.attn1.processor" ++
            ".to_q_lora.up.weight").toList, [640, 4]⟩],
          false, .ok []⟩ "ref"
        ⟨none, false, none, false⟩
        ⟨⟨[320, 640, 1280], 2048⟩,
          ["mid_block.attentions.0.attn1.processor".toList], none,
          []⟩).2.1.procs =
        some [⟨"mid_block.attentions.0.attn1.processor".toList, 1280,
          none, 4⟩] ∧
      (load_trained_weights
        ⟨true, false, .ok [],
          .ok [⟨("mid_block.attentions.0.attn1.processor" ++
            ".to_q_lora.up.weight").toList, [640, 4]⟩],
          false, .ok []⟩ "ref"
        ⟨none, false, none, false⟩
        ⟨⟨[320, 640, 1280], 2048⟩,
          ["mid_block.attentions.0.attn1.processor".toList], none,
          []⟩).2.2 = .error .osError) :=
  ⟨⟨rfl, rfl⟩, ⟨rfl, rfl⟩⟩

/-- C8 (amended): on a cache-fetch failure the call errors with the
loader's `tuned_weights` already reassigned (everything else untouched);
more generally, on any failing call `token_map` and `tuned_model` are
still unchanged, but `tuned_weights` has already been overwritten. -/
theorem load_failure_state_profile (env : LoadEnv) (w : String)
    (st : LoaderSt) (unet : Unet) :
    (env.fetch_ok = false →
      load_trained_weights env w st unet =
        ({ st with tuned_weights := some w }, unet, .error .fetchError)) ∧
    (∀ e : PyErr, (load_trained_weights env w st unet).2.2 = .error e →
      (load_trained_weights env w st unet).1.token_map = st.token_map ∧
      (load_trained_weights env w st unet).1.tuned_model = st.tuned_model ∧
      (load_trained_weights env w st unet).1.tuned_weights = some w) := by
  constructor
  · intro hf
    unfold load_trained_weights
    rw [if_neg (by simp [hf])]
  · intro e he
    rcases env with ⟨fok, hu, ut, lt, eok, sp⟩
    cases fok with
    | false => exact ⟨rfl, rfl, rfl⟩
    | true =>
        cases hu with
        | true =>
            cases ut with
            | error e2 => exact ⟨rfl, rfl, rfl⟩
            | ok ts =>
                cases eok with
                | false => exact ⟨rfl, rfl, rfl⟩
                | true =>
                    cases sp with
                    | error e2 => exact ⟨rfl, rfl, rfl⟩
                    | ok params => simp [load_trained_weights] at he
        | false =>
            cases lt with
            | error e2 => exact ⟨rfl, rfl, rfl⟩
            | ok ts =>
                cases hinf : infer_schema unet.config ts
                    unet.attn_processor_names with
                | error e2 =>
                    refine ⟨?_, ?_, ?_⟩ <;> simp [load_trained_weights, hinf]
                | ok specs =>
                    cases eok with
                    | false =>
                        refine ⟨?_, ?_, ?_⟩ <;>
                          simp [load_trained_weights, hinf]
                    | true =>
                        cases sp with
                        | error e2 =>
                            refine ⟨?_, ?_, ?_⟩ <;>
                              simp [load_trained_weights, hinf]
                        | ok params =>
                            simp [load_trained_weights, hinf] at he

/-- Witness for the amended C8: a failing fetch returns FetchError with
`tuned_weights` reassigned and nothing else changed. -/
theorem load_failure_state_profile_witness :
    load_trained_weights ⟨false, true, .ok [], .ok [], true, .ok []⟩ "ref2"
        ⟨none, false, none, false⟩
        ⟨⟨[320, 640, 1280], 2048⟩, [], none, []⟩ =
      (⟨some "ref2", false, none, false⟩,
        ⟨⟨[320, 640, 1280], 2048⟩, [], none, []⟩, .error .fetchError) :=
  (load_failure_state_profile ⟨false, true, .ok [], .ok [], true, .ok []⟩
    "ref2" ⟨none, false, none, false⟩
    ⟨⟨[320, 640, 1280], 2048⟩, [], none, []⟩).1 rfl

/-- C10: a weights argument whose string form is exactly "weights" is
normalized to None, so it triggers no trained-weight loading by itself;
setup loads trained weights exactly when a (normalized) reference remains
or the local ./trained-model directory exists. -/
theorem setup_weights_sentinel (w : Option String) (d : Bool) :
    setup_loads_trained (some "weights") d = setup_loads_trained none d ∧
    setup_loads_trained (some "weights") d = d ∧
    (setup_loads_trained w d = true ↔
      ((setup_weights_normalize w).isSome = true ∨ d = true)) := by
  refine ⟨rfl, rfl, ?_⟩
  simp [setup_loads_trained]

end Predict
